import Mathlib

/-!
Shallow embedding of the termscp remote-argument resolver
(`src/cli/remote.rs`: `RemoteArgs::try_from`, `RemoteArgs::parse_ssh_host`,
`RemoteArgs::parse_remote_address`) together with theorems checking the
natural-language specification against it.

External effects of the Rust code (filesystem existence checks, the
address-string parser `utils::parser::parse_remote_opt`, and loading the
default SSH client configuration via the `ssh2_config` crate) are modelled
as an explicit environment of oracles threaded through the resolver.
-/

deriving instance DecidableEq for Except

namespace Termscp

/-- Modelled from the spec: the protocol kind of the opaque connection
parameters bundle (`FileTransferProtocol` lives in `src/filetransfer`, not
part of the excerpted sources).  The resolver only ever constructs `Sftp`;
other kinds produced by the external address parser stay opaque. -/
inductive FileTransferProtocol where
  | Sftp
  | Other (name : String)
deriving DecidableEq, Repr

/-- Modelled from the spec: generic protocol parameters (address, port,
optional username) as built by `GenericProtocolParams::default().address(..)
.port(..).username(..)` in `src/filetransfer`, not part of the excerpted
sources. -/
structure GenericProtocolParams where
  address : String
  port : Nat
  username : Option String
deriving DecidableEq, Repr

/-- Modelled from the spec: the protocol-specific part of the opaque
connection parameters bundle.  The resolver only constructs the generic
variant; others stay opaque. -/
inductive ProtocolParams where
  | Generic (params : GenericProtocolParams)
  | Other (tag : String)
deriving DecidableEq, Repr

/-- Modelled from the spec: the opaque connection parameters bundle
(`FileTransferParams` in `src/filetransfer`, not part of the excerpted
sources): protocol kind, protocol parameters, optional initial remote
directory. -/
structure FileTransferParams where
  protocol : FileTransferProtocol
  params : ProtocolParams
  remote_path : Option String
deriving DecidableEq, Repr

/-- `ssh2_config` pattern: a pattern text with a negation flag
(spec §6, SSH client configuration reader collaborator). -/
structure SshPattern where
  pattern : String
  negated : Bool
deriving DecidableEq, Repr

/-- `ssh2_config` per-host parameters used by the resolver
(spec §6: `host_name`, `port`, `user`, all optional). -/
structure SshHostParams where
  host_name : Option String
  port : Option Nat
  user : Option String
deriving DecidableEq, Repr

/-- One host entry of the loaded SSH configuration: a pattern list and
its parameters (spec §6). -/
structure SshConfigHost where
  pattern : List SshPattern
  params : SshHostParams
deriving DecidableEq, Repr

/-- Address type: classification tag of one raw token (`enum AddrType`
in `src/cli/remote.rs`). -/
inductive AddrType where
  | Address
  | Bookmark
  | SshHost
deriving DecidableEq, Repr

/-- Bookmark parameters (`struct BookmarkParams`). -/
structure BookmarkParams where
  name : String
  password : Option String
deriving DecidableEq, Repr

/-- Host parameters (`struct HostParams`). -/
structure HostParams where
  file_transfer_params : FileTransferParams
  password : Option String
deriving DecidableEq, Repr

/-- Remote argument type (`enum Remote` in `src/cli/remote.rs`). -/
inductive Remote where
  | Bookmark (params : BookmarkParams)
  | Host (params : HostParams)
  | None
deriving DecidableEq, Repr

/-- Args for remote connection (`struct RemoteArgs`): the resolved
connection plan — bridge slot, target slot, optional local directory.
Paths are modelled as their strings. -/
structure RemoteArgs where
  host_bridge : Remote
  remote : Remote
  local_dir : Option String
deriving DecidableEq, Repr

/-- `RemoteArgs::default()`: both slots `None`, no local directory. -/
def RemoteArgs.default : RemoteArgs :=
  { host_bridge := Remote.None, remote := Remote.None, local_dir := none }

/-- Modelled from the spec: the already-separated argument collections of
`struct Args` (`src/cli/mod.rs`, not part of the excerpted sources; spec
§6 inputs): bookmark names, SSH host aliases, free-form positionals and
positional passwords. -/
structure Args where
  bookmark : List String
  ssh_host : List String
  positional : List String
  password : List String
deriving DecidableEq, Repr

/-- The environment of external effects of the resolver: filesystem
existence (`Path::new(arg).exists()`), the external address-string parser
(`utils::parser::parse_remote_opt`, already wrapped as a result), and the
result of loading the default SSH configuration
(`SshConfig::parse_default_file`). -/
structure Env where
  pathExists : String → Bool
  parseAddr : String → Except String FileTransferParams
  sshConfig : Except String (List SshConfigHost)

/-- `RemoteArgs::parse_remote_address`: delegate to the external parser,
mapping its error to the `Bad address option` message. -/
def parse_remote_address (env : Env) (remote : String) : Except String FileTransferParams :=
  (env.parseAddr remote).mapError (fun e => "Bad address option: " ++ e)

/-- Split a character sequence at its first `:`; `none` when there is no
colon (the `host_arg.find(':')` search of `parse_ssh_host`). -/
def splitAtColon : List Char → Option (List Char × List Char)
  | [] => none
  | c :: cs =>
    if c = ':' then some ([], cs)
    else (splitAtColon cs).map (fun p => (c :: p.1, p.2))

/-- The `host_arg.find(':')` split of an SSH-alias token into
`(alias, optional remote path)`: text before the first colon is the alias,
text after it (kept verbatim, further colons included) is the remote path,
dropped when empty. -/
def splitHostArg (host_arg : String) : String × Option String :=
  match splitAtColon host_arg.data with
  | none => (host_arg, none)
  | some (a, p) =>
    (String.mk a, if p.isEmpty then none else some (String.mk p))

/-- The per-entry match test of `parse_ssh_host`: some pattern of the
entry is non-negated and exactly equals the alias. -/
def matchesAlias (h : SshConfigHost) (host_alias : String) : Bool :=
  h.pattern.any (fun p => !p.negated && p.pattern == host_alias)

/-- The `SSH host not found` error message of `parse_ssh_host`. -/
def sshNotFoundMsg (host_alias : String) : String :=
  "SSH host \x27" ++ host_alias ++ "\x27 not found in ~/.ssh/config"

/-- `RemoteArgs::parse_ssh_host`: split the token as `alias[:remote_path]`,
load the default SSH configuration, find the first host entry with a
non-negated exact pattern match, and build SFTP parameters from its
`host_name` (default: the alias), `port` (default: 22) and `user`,
attaching the remote path when given. -/
def parse_ssh_host (env : Env) (host_arg : String) : Except String FileTransferParams :=
  let host_alias := (splitHostArg host_arg).1
  let remote_path := (splitHostArg host_arg).2
  match env.sshConfig.mapError (fun e => "Could not parse SSH config: " ++ e) with
  | Except.error e => Except.error e
  | Except.ok hosts =>
    match hosts.find? (fun h => matchesAlias h host_alias) with
    | none => Except.error (sshNotFoundMsg host_alias)
    | some host =>
      let address := (host.params.host_name).getD host_alias
      let port := (host.params.port).getD 22
      let username := host.params.user
      Except.ok
        { protocol := FileTransferProtocol.Sftp
          params := ProtocolParams.Generic
            { address := address, port := port, username := username }
          remote_path := remote_path }

/-- Step-3 per-token resolution: the `match addr_type` body of the loop in
`RemoteArgs::try_from`. -/
def resolveToken (env : Env) (addr_type : AddrType) (arg : String)
    (password : Option String) : Except String Remote :=
  match addr_type with
  | AddrType.Address =>
    (parse_remote_address env arg).map
      (fun x => Remote.Host { file_transfer_params := x, password := password })
  | AddrType.Bookmark =>
    Except.ok (Remote.Bookmark { name := arg, password := password })
  | AddrType.SshHost =>
    (parse_ssh_host env arg).map
      (fun x => Remote.Host { file_transfer_params := x, password := password })

/-- The concatenated, class-tagged token sequence of `try_from`:
bookmarks first, then SSH aliases, then positionals (the
`.iter().map(..).chain(..).chain(..)` expression). -/
def classifiedTokens (args : Args) : List (AddrType × String) :=
  args.bookmark.map (fun x => (AddrType.Bookmark, x))
    ++ args.ssh_host.map (fun x => (AddrType.SshHost, x))
    ++ args.positional.map (fun x => (AddrType.Address, x))

/-- `total_hosts` of `try_from`. -/
def totalHosts (args : Args) : Nat :=
  args.bookmark.length + args.ssh_host.length + args.positional.length

/-- The enumerated loop of `try_from`: the counter `i` models
`.enumerate()`; `last` is `last_item_index`.  The token at `i == last`
that names an existing filesystem entry becomes the local directory and
is skipped; every other token is resolved and appended to the host list.
The password of the token at ordinal `i` is `passwords.get? i`. -/
def resolveLoop (env : Env) (passwords : List String) (last : Nat) :
    Nat → List (AddrType × String) → Option String → List Remote →
    Except String (Option String × List Remote)
  | _, [], localDir, hosts => Except.ok (localDir, hosts)
  | i, (addr_type, arg) :: rest, localDir, hosts =>
    if i == last && env.pathExists arg then
      resolveLoop env passwords last (i + 1) rest (some arg) hosts
    else
      match resolveToken env addr_type arg (passwords.get? i) with
      | Except.error e => Except.error e
      | Except.ok remote =>
        resolveLoop env passwords last (i + 1) rest localDir (hosts ++ [remote])

/-- The whole loop of `try_from` on the concatenated sequence, yielding
the optional local directory and the resolved host list.
`last_item_index` is `total_hosts.checked_sub(1).unwrap_or_default()`,
which is saturating subtraction. -/
def resolveHosts (env : Env) (args : Args) :
    Except String (Option String × List Remote) :=
  resolveLoop env args.password (totalHosts args - 1) 0 (classifiedTokens args) none []

/-- `RemoteArgs::try_from`: cardinality check, the resolution loop, then
role assignment by the length of the host list — one host becomes the
remote (target); with two, the first-resolved host becomes the remote and
the second the bridge (`hosts.pop()` pops from the end); any other length
leaves both slots at their defaults. -/
def tryFrom (env : Env) (args : Args) : Except String RemoteArgs :=
  if totalHosts args > 3 then Except.error "Too many arguments"
  else
    match resolveHosts env args with
    | Except.error e => Except.error e
    | Except.ok (localDir, hosts) =>
      match hosts with
      | [h] =>
        Except.ok { host_bridge := Remote.None, remote := h, local_dir := localDir }
      | [h1, h2] =>
        Except.ok { host_bridge := h2, remote := h1, local_dir := localDir }
      | _ =>
        Except.ok { host_bridge := Remote.None, remote := Remote.None, local_dir := localDir }

/-- Plain per-token resolution of a token list starting at ordinal `i`,
with no trailing-local-directory reclassification: what Step 3 does to
every token that is not consumed as a local directory. -/
def resolveTokensPlain (env : Env) (passwords : List String) :
    Nat → List (AddrType × String) → Except String (List Remote)
  | _, [] => Except.ok []
  | i, (addr_type, arg) :: rest =>
    match resolveToken env addr_type arg (passwords.get? i) with
    | Except.error e => Except.error e
    | Except.ok remote =>
      (resolveTokensPlain env passwords (i + 1) rest).map (fun rs => remote :: rs)

/-- The password stored inside a resolved `Remote` value. -/
def passwordOf : Remote → Option String
  | Remote.Bookmark p => p.password
  | Remote.Host p => p.password
  | Remote.None => none

/-! ### Structural lemmas about the resolution loop -/

theorem classifiedTokens_length (args : Args) :
    (classifiedTokens args).length = totalHosts args := by
  simp only [classifiedTokens, totalHosts, List.length_append, List.length_map]

theorem resolveLoop_append (env : Env) (pw : List String) (last : Nat)
    (ts1 ts2 : List (AddrType × String)) (i : Nat) (ld : Option String)
    (acc : List Remote) :
    resolveLoop env pw last i (ts1 ++ ts2) ld acc =
      match resolveLoop env pw last i ts1 ld acc with
      | Except.error e => Except.error e
      | Except.ok (ld2, acc2) => resolveLoop env pw last (i + ts1.length) ts2 ld2 acc2 := by
  induction ts1 generalizing i ld acc with
  | nil => simp [resolveLoop]
  | cons t rest ih =>
    obtain ⟨ty, arg⟩ := t
    have harith : i + 1 + rest.length = i + (rest.length + 1) := by omega
    by_cases h : (i == last && env.pathExists arg) = true
    · simp only [List.cons_append, resolveLoop, if_pos h, List.append_eq, List.length_cons]
      rw [ih, harith]
    · simp only [List.cons_append, resolveLoop, if_neg h, List.append_eq, List.length_cons]
      cases hres : resolveToken env ty arg (pw.get? i) with
      | error e => rfl
      | ok r =>
        show resolveLoop env pw last (i + 1) (rest ++ ts2) ld (acc ++ [r]) =
          match resolveLoop env pw last (i + 1) rest ld (acc ++ [r]) with
          | Except.error e => Except.error e
          | Except.ok (ld2, acc2) =>
            resolveLoop env pw last (i + (rest.length + 1)) ts2 ld2 acc2
        rw [ih, harith]

theorem resolveLoop_eq_plain (env : Env) (pw : List String) (last : Nat)
    (ts : List (AddrType × String)) (i : Nat) (ld : Option String)
    (acc : List Remote)
    (h : ∀ j, (hj : j < ts.length) → i + j = last →
      env.pathExists (ts.get ⟨j, hj⟩).2 = false) :
    resolveLoop env pw last i ts ld acc =
      (resolveTokensPlain env pw i ts).map (fun rs => (ld, acc ++ rs)) := by
  induction ts generalizing i acc with
  | nil => simp [resolveLoop, resolveTokensPlain, Except.map]
  | cons t rest ih =>
    obtain ⟨ty, arg⟩ := t
    have hcond : (i == last && env.pathExists arg) = false := by
      by_cases hi : i = last
      · have := h 0 (by simp) (by omega)
        simp only [List.get] at this
        simp [this]
      · simp [hi]
    simp only [resolveLoop, resolveTokensPlain, hcond, Bool.false_eq_true, if_false]
    cases hres : resolveToken env ty arg (pw.get? i) with
    | error e => rfl
    | ok r =>
      show resolveLoop env pw last (i + 1) rest ld (acc ++ [r]) =
        Except.map (fun rs => (ld, acc ++ rs))
          (Except.map (fun rs => r :: rs) (resolveTokensPlain env pw (i + 1) rest))
      rw [ih (i + 1) (acc ++ [r]) (fun j hj hlast => by
        have := h (j + 1) (by simpa using Nat.succ_lt_succ hj) (by omega)
        simpa using this)]
      cases hplain : resolveTokensPlain env pw (i + 1) rest with
      | error e => rfl
      | ok rs => simp [Except.map]

theorem resolveTokensPlain_length (env : Env) (pw : List String)
    (ts : List (AddrType × String)) (i : Nat) (rs : List Remote)
    (h : resolveTokensPlain env pw i ts = Except.ok rs) :
    rs.length = ts.length := by
  induction ts generalizing i rs with
  | nil =>
    simp only [resolveTokensPlain] at h
    cases h
    rfl
  | cons t rest ih =>
    obtain ⟨ty, arg⟩ := t
    simp only [resolveTokensPlain] at h
    cases hres : resolveToken env ty arg (pw.get? i) with
    | error e => rw [hres] at h; cases h
    | ok r =>
      rw [hres] at h
      cases hrest : resolveTokensPlain env pw (i + 1) rest with
      | error e => rw [hrest] at h; cases h
      | ok rs2 =>
        rw [hrest] at h
        simp only [Except.map] at h
        cases h
        simp [ih (i + 1) rs2 hrest]

theorem resolveToken_password (env : Env) (ty : AddrType) (arg : String)
    (p : Option String) (r : Remote)
    (h : resolveToken env ty arg p = Except.ok r) :
    passwordOf r = p := by
  cases ty with
  | Bookmark =>
    simp only [resolveToken] at h
    cases h
    rfl
  | Address =>
    simp only [resolveToken] at h
    cases hp : parse_remote_address env arg with
    | error e => rw [hp] at h; cases h
    | ok x =>
      rw [hp] at h
      simp only [Except.map] at h
      cases h
      rfl
  | SshHost =>
    simp only [resolveToken] at h
    cases hp : parse_ssh_host env arg with
    | error e => rw [hp] at h; cases h
    | ok x =>
      rw [hp] at h
      simp only [Except.map] at h
      cases h
      rfl

theorem resolveToken_ne_none (env : Env) (ty : AddrType) (arg : String)
    (p : Option String) (r : Remote)
    (h : resolveToken env ty arg p = Except.ok r) :
    r ≠ Remote.None := by
  cases ty with
  | Bookmark =>
    simp only [resolveToken] at h
    cases h
    simp
  | Address =>
    simp only [resolveToken] at h
    cases hp : parse_remote_address env arg with
    | error e => rw [hp] at h; cases h
    | ok x =>
      rw [hp] at h
      simp only [Except.map] at h
      cases h
      simp
  | SshHost =>
    simp only [resolveToken] at h
    cases hp : parse_ssh_host env arg with
    | error e => rw [hp] at h; cases h
    | ok x =>
      rw [hp] at h
      simp only [Except.map] at h
      cases h
      simp

theorem resolveTokensPlain_password (env : Env) (pw : List String)
    (ts : List (AddrType × String)) (i : Nat) (rs : List Remote)
    (h : resolveTokensPlain env pw i ts = Except.ok rs) :
    ∀ j, (hj : j < rs.length) → passwordOf (rs.get ⟨j, hj⟩) = pw.get? (i + j) := by
  induction ts generalizing i rs with
  | nil =>
    simp only [resolveTokensPlain] at h
    cases h
    intro j hj
    simp at hj
  | cons t rest ih =>
    obtain ⟨ty, arg⟩ := t
    simp only [resolveTokensPlain] at h
    cases hres : resolveToken env ty arg (pw.get? i) with
    | error e => rw [hres] at h; cases h
    | ok r =>
      rw [hres] at h
      cases hrest : resolveTokensPlain env pw (i + 1) rest with
      | error e => rw [hrest] at h; cases h
      | ok rs2 =>
        rw [hrest] at h
        simp only [Except.map] at h
        cases h
        intro j hj
        cases j with
        | zero =>
          simpa using resolveToken_password env ty arg (pw.get? i) r hres
        | succ k =>
          have harith : i + (k + 1) = i + 1 + k := by omega
          rw [harith]
          have hk : k < rs2.length := by simpa using Nat.lt_of_succ_lt_succ hj
          simpa using ih (i + 1) rs2 hrest k hk

theorem resolveTokensPlain_ne_none (env : Env) (pw : List String)
    (ts : List (AddrType × String)) (i : Nat) (rs : List Remote)
    (h : resolveTokensPlain env pw i ts = Except.ok rs) :
    ∀ r ∈ rs, r ≠ Remote.None := by
  induction ts generalizing i rs with
  | nil =>
    simp only [resolveTokensPlain] at h
    cases h
    simp
  | cons t rest ih =>
    obtain ⟨ty, arg⟩ := t
    simp only [resolveTokensPlain] at h
    cases hres : resolveToken env ty arg (pw.get? i) with
    | error e => rw [hres] at h; cases h
    | ok r =>
      rw [hres] at h
      cases hrest : resolveTokensPlain env pw (i + 1) rest with
      | error e => rw [hrest] at h; cases h
      | ok rs2 =>
        rw [hrest] at h
        simp only [Except.map] at h
        cases h
        intro x hx
        rcases List.mem_cons.mp hx with hx | hx
        · exact hx ▸ resolveToken_ne_none env ty arg (pw.get? i) r hres
        · exact ih (i + 1) rs2 hrest x hx

/-- Step-2 decomposition, existing trailing path: when the concatenated
sequence decomposes as `init ++ [t]` and `t`'s text names an existing
filesystem entry, the whole loop equals plain Step-3 resolution of `init`
with `t`'s text as the local directory. -/
theorem resolveHosts_of_last_exists (env : Env) (args : Args)
    (init : List (AddrType × String)) (t : AddrType × String)
    (hsplit : classifiedTokens args = init ++ [t])
    (hex : env.pathExists t.2 = true) :
    resolveHosts env args =
      (resolveTokensPlain env args.password 0 init).map (fun hs => (some t.2, hs)) := by
  obtain ⟨ty, arg⟩ := t
  have hlen : totalHosts args = init.length + 1 := by
    rw [← classifiedTokens_length, hsplit]
    simp
  unfold resolveHosts
  rw [hsplit, hlen]
  have hlast : init.length + 1 - 1 = init.length := by omega
  rw [hlast, resolveLoop_append]
  rw [resolveLoop_eq_plain env args.password init.length init 0 none []
    (fun j hj hlastj => by omega)]
  cases hplain : resolveTokensPlain env args.password 0 init with
  | error e => rfl
  | ok hs =>
    show resolveLoop env args.password init.length (0 + init.length) [(ty, arg)]
        none ([] ++ hs) = Except.ok (some arg, hs)
    simp only [Nat.zero_add, List.nil_append, resolveLoop]
    rw [if_pos (by simp [hex])]

/-- Step-2 decomposition, no trailing path: when the last concatenated
token (if any) does not name an existing filesystem entry, the whole loop
equals plain Step-3 resolution of the full sequence, with no local
directory. -/
theorem resolveHosts_of_last_not_exists (env : Env) (args : Args)
    (hex : ∀ t, (classifiedTokens args).getLast? = some t →
      env.pathExists t.2 = false) :
    resolveHosts env args =
      (resolveTokensPlain env args.password 0 (classifiedTokens args)).map
        (fun hs => (none, hs)) := by
  unfold resolveHosts
  rw [← classifiedTokens_length]
  rw [resolveLoop_eq_plain env args.password ((classifiedTokens args).length - 1)
    (classifiedTokens args) 0 none []
    (fun j hj hlastj => by
      have hj2 : j = (classifiedTokens args).length - 1 := by omega
      have hget : (classifiedTokens args).getLast? =
          some ((classifiedTokens args).get ⟨j, hj⟩) := by
        rw [List.getLast?_eq_getElem?]
        rw [List.getElem?_eq_getElem (by omega)]
        simp [hj2]
      exact hex _ hget)]
  cases resolveTokensPlain env args.password 0 (classifiedTokens args) with
  | error e => rfl
  | ok hs => simp [Except.map]

/-! ### Error messages produced by the loop are never the cardinality error -/

theorem parse_ssh_host_error_length (env : Env) (host_arg e : String)
    (h : parse_ssh_host env host_arg = Except.error e) : 18 < e.length := by
  unfold parse_ssh_host at h
  cases hcfg : env.sshConfig with
  | error e0 =>
    rw [hcfg] at h
    simp only [Except.mapError] at h
    cases h
    have : ("Could not parse SSH config: ").length = 28 := by decide
    rw [String.length_append, this]
    omega
  | ok hosts =>
    rw [hcfg] at h
    simp only [Except.mapError] at h
    cases hfind : hosts.find? (fun hh => matchesAlias hh (splitHostArg host_arg).1) with
    | none =>
      rw [hfind] at h
      cases h
      have h1 : ("SSH host \x27").length = 10 := by decide
      have h2 : ("\x27 not found in ~/.ssh/config").length = 28 := by decide
      unfold sshNotFoundMsg
      rw [String.length_append, String.length_append, h1, h2]
      omega
    | some host => rw [hfind] at h; cases h

theorem resolveToken_error_length (env : Env) (ty : AddrType) (arg : String)
    (p : Option String) (e : String)
    (h : resolveToken env ty arg p = Except.error e) : 18 < e.length := by
  cases ty with
  | Bookmark => simp only [resolveToken] at h; cases h
  | Address =>
    simp only [resolveToken] at h
    cases hp : env.parseAddr arg with
    | error e0 =>
      simp only [parse_remote_address, hp, Except.mapError, Except.map] at h
      cases h
      have : ("Bad address option: ").length = 20 := by decide
      rw [String.length_append, this]
      omega
    | ok x => simp only [parse_remote_address, hp, Except.mapError, Except.map] at h; cases h
  | SshHost =>
    simp only [resolveToken] at h
    cases hp : parse_ssh_host env arg with
    | error e0 =>
      rw [hp] at h
      simp only [Except.map] at h
      cases h
      exact parse_ssh_host_error_length env arg _ hp
    | ok x => rw [hp] at h; simp only [Except.map] at h; cases h

theorem resolveLoop_error_length (env : Env) (pw : List String) (last : Nat)
    (ts : List (AddrType × String)) (i : Nat) (ld : Option String)
    (acc : List Remote) (e : String)
    (h : resolveLoop env pw last i ts ld acc = Except.error e) : 18 < e.length := by
  induction ts generalizing i ld acc with
  | nil => simp only [resolveLoop] at h; cases h
  | cons t rest ih =>
    obtain ⟨ty, arg⟩ := t
    simp only [resolveLoop] at h
    by_cases hc : (i == last && env.pathExists arg) = true
    · rw [if_pos hc] at h
      exact ih (i + 1) (some arg) acc h
    · rw [if_neg hc] at h
      cases hres : resolveToken env ty arg (pw.get? i) with
      | error e0 =>
        rw [hres] at h
        cases h
        exact resolveToken_error_length env ty arg (pw.get? i) e hres
      | ok r =>
        rw [hres] at h
        exact ih (i + 1) ld (acc ++ [r]) h

theorem resolveLoop_length_le (env : Env) (pw : List String) (last : Nat)
    (ts : List (AddrType × String)) (i : Nat) (ld : Option String)
    (acc : List Remote) (ld2 : Option String) (acc2 : List Remote)
    (h : resolveLoop env pw last i ts ld acc = Except.ok (ld2, acc2)) :
    acc2.length ≤ acc.length + ts.length := by
  induction ts generalizing i ld acc with
  | nil =>
    simp only [resolveLoop] at h
    cases h
    simp
  | cons t rest ih =>
    obtain ⟨ty, arg⟩ := t
    simp only [resolveLoop] at h
    by_cases hc : (i == last && env.pathExists arg) = true
    · rw [if_pos hc] at h
      have := ih (i + 1) (some arg) acc h
      simp only [List.length_cons]
      omega
    · rw [if_neg hc] at h
      cases hres : resolveToken env ty arg (pw.get? i) with
      | error e => rw [hres] at h; cases h
      | ok r =>
        rw [hres] at h
        have := ih (i + 1) ld (acc ++ [r]) h
        simp only [List.length_append, List.length_cons, List.length_nil] at this ⊢
        omega

theorem resolveLoop_ne_none (env : Env) (pw : List String) (last : Nat)
    (ts : List (AddrType × String)) (i : Nat) (ld : Option String)
    (acc : List Remote) (ld2 : Option String) (acc2 : List Remote)
    (h : resolveLoop env pw last i ts ld acc = Except.ok (ld2, acc2))
    (hacc : ∀ r ∈ acc, r ≠ Remote.None) :
    ∀ r ∈ acc2, r ≠ Remote.None := by
  induction ts generalizing i ld acc with
  | nil =>
    simp only [resolveLoop] at h
    cases h
    exact hacc
  | cons t rest ih =>
    obtain ⟨ty, arg⟩ := t
    simp only [resolveLoop] at h
    by_cases hc : (i == last && env.pathExists arg) = true
    · rw [if_pos hc] at h
      exact ih (i + 1) (some arg) acc h hacc
    · rw [if_neg hc] at h
      cases hres : resolveToken env ty arg (pw.get? i) with
      | error e => rw [hres] at h; cases h
      | ok r =>
        rw [hres] at h
        refine ih (i + 1) ld (acc ++ [r]) h (fun x hx => ?_)
        rcases List.mem_append.mp hx with hx | hx
        · exact hacc x hx
        · have hxr : x = r := by simpa using hx
          exact hxr ▸ resolveToken_ne_none env ty arg (pw.get? i) r hres

theorem find?_first_match {α : Type} (p : α → Bool) (pre post : List α) (x : α)
    (hpre : ∀ y ∈ pre, p y = false) (hx : p x = true) :
    (pre ++ x :: post).find? p = some x := by
  induction pre with
  | nil => simp [List.find?_cons, hx]
  | cons a rest ih =>
    have ha : p a = false := hpre a (by simp)
    simp only [List.cons_append, List.find?_cons, ha]
    exact ih (fun y hy => hpre y (by simp [hy]))

/-! ### Witness fixtures: a concrete environment and concrete inputs -/

/-- A concrete result of the modelled external address parser. -/
def addrParamsOf (s : String) : FileTransferParams :=
  { protocol := FileTransferProtocol.Other "parsed"
    params := ProtocolParams.Other s
    remote_path := none }

/-- A concrete SSH configuration entry matching alias `myhost`. -/
def sshEntryW : SshConfigHost :=
  { pattern := [{ pattern := "myhost", negated := false }]
    params := { host_name := some "10.0.0.5", port := some 2222, user := some "bob" } }

/-- A concrete loaded SSH configuration. -/
def cfgW : List SshConfigHost := [sshEntryW]

/-- A concrete environment: only `/home` exists on disk, the address
parser accepts every string, the SSH configuration is `cfgW`. -/
def envW : Env :=
  { pathExists := fun s => s == "/home"
    parseAddr := fun s => Except.ok (addrParamsOf s)
    sshConfig := Except.ok cfgW }

def argsC1 : Args :=
  { bookmark := [], ssh_host := [], positional := ["scp://h1", "scp://h2"], password := ["p1"] }

def argsC2 : Args :=
  { bookmark := ["bm1", "bm2", "bm3"], ssh_host := [], positional := [], password := [] }

def hostsC2 : List Remote :=
  [ Remote.Bookmark { name := "bm1", password := none },
    Remote.Bookmark { name := "bm2", password := none },
    Remote.Bookmark { name := "bm3", password := none } ]

def argsC3 : Args :=
  { bookmark := [], ssh_host := [],
    positional := ["scp://h1", "scp://h2", "/home"], password := ["p1", "p2", "p3"] }

def initC3 : List (AddrType × String) :=
  [(AddrType.Address, "scp://h1"), (AddrType.Address, "scp://h2")]

def argsC4 : Args :=
  { bookmark := [], ssh_host := [], positional := ["scp://a", "scp://b"], password := ["p1"] }

def hostsC4 : List Remote :=
  [ Remote.Host { file_transfer_params := addrParamsOf "scp://a", password := some "p1" },
    Remote.Host { file_transfer_params := addrParamsOf "scp://b", password := none } ]

def argsC5 : Args :=
  { bookmark := ["b1", "b2", "b3", "b4"], ssh_host := [], positional := [], password := [] }

def argsC8 : Args :=
  { bookmark := [], ssh_host := [], positional := ["scp://x", "scp://y", "scp://z"], password := [] }

def hostsC8 : List Remote :=
  [ Remote.Host { file_transfer_params := addrParamsOf "scp://x", password := none },
    Remote.Host { file_transfer_params := addrParamsOf "scp://y", password := none },
    Remote.Host { file_transfer_params := addrParamsOf "scp://z", password := none } ]

def argsC9 : Args :=
  { bookmark := ["bm"], ssh_host := [], positional := ["scp://x", "scp://y"], password := [] }

def hostsC9 : List Remote :=
  [ Remote.Bookmark { name := "bm", password := none },
    Remote.Host { file_transfer_params := addrParamsOf "scp://x", password := none },
    Remote.Host { file_transfer_params := addrParamsOf "scp://y", password := none } ]

def argsC10 : Args :=
  { bookmark := [], ssh_host := [], positional := ["scp://h1", "/home"], password := ["pw1", "pw2"] }

def initC10 : List (AddrType × String) := [(AddrType.Address, "scp://h1")]

def hostsC10 : List Remote :=
  [ Remote.Host { file_transfer_params := addrParamsOf "scp://h1", password := some "pw1" } ]

/-! ### Claim theorems -/

/-- C1: with exactly two resolved hosts, the first-resolved host (earlier
in concatenation order) becomes the plan's target (`remote`) and the
second becomes the bridge (`host_bridge`) — role order inverted relative
to concatenation order; with exactly one resolved host, that host becomes
the target and the bridge is `None`. -/
theorem role_assignment_inverts_order :
    (∀ (env : Env) (args : Args) (ld : Option String) (h1 h2 : Remote),
      totalHosts args ≤ 3 →
      resolveHosts env args = Except.ok (ld, [h1, h2]) →
      tryFrom env args = Except.ok { host_bridge := h2, remote := h1, local_dir := ld })
    ∧ (∀ (env : Env) (args : Args) (ld : Option String) (h1 : Remote),
      totalHosts args ≤ 3 →
      resolveHosts env args = Except.ok (ld, [h1]) →
      tryFrom env args = Except.ok { host_bridge := Remote.None, remote := h1, local_dir := ld }) := by
  constructor
  · intro env args ld h1 h2 hle hres
    unfold tryFrom
    rw [if_neg (by omega), hres]
  · intro env args ld h1 hle hres
    unfold tryFrom
    rw [if_neg (by omega), hres]

/-- C1 witness: two positional addresses; the first becomes the target
(with the single password), the second the bridge. -/
theorem role_assignment_inverts_order_witness :
    tryFrom envW argsC1 = Except.ok
      { host_bridge := Remote.Host { file_transfer_params := addrParamsOf "scp://h2", password := none }
        remote := Remote.Host { file_transfer_params := addrParamsOf "scp://h1", password := some "p1" }
        local_dir := none } :=
  role_assignment_inverts_order.1 envW argsC1 none
    (Remote.Host { file_transfer_params := addrParamsOf "scp://h1", password := some "p1" })
    (Remote.Host { file_transfer_params := addrParamsOf "scp://h2", password := none })
    (by decide) (by decide)

/-- C2 counterexample: an accepted input (three bookmarks, none naming an
existing path) on which the loop resolves three hosts — a resolved host
count of 3 is possible, refuting the claim that it cannot occur. -/
theorem resolved_host_count_three_cex :
    totalHosts argsC2 ≤ 3 ∧
    (resolveHosts envW argsC2).map (fun p => p.2.length) = Except.ok 3 := by decide

/-- C2 amended: the resolved host list is bounded by the token total
(hence by 3 on accepted inputs), and at most two resolved hosts ever feed
into the (bridge, target) slots — when the resolved count is 3, none of
them is assigned and both slots stay `None`. -/
theorem resolved_hosts_bounded_by_total (env : Env) (args : Args)
    (ld : Option String) (hs : List Remote)
    (hok : resolveHosts env args = Except.ok (ld, hs)) :
    hs.length ≤ totalHosts args
    ∧ (totalHosts args ≤ 3 → hs.length = 3 →
        tryFrom env args = Except.ok
          { host_bridge := Remote.None, remote := Remote.None, local_dir := ld }) := by
  constructor
  · have := resolveLoop_length_le env args.password (totalHosts args - 1)
      (classifiedTokens args) 0 none [] ld hs hok
    rw [classifiedTokens_length] at this
    simpa using this
  · intro hle hlen3
    unfold tryFrom
    rw [if_neg (by omega), hok]
    match hs, hlen3 with
    | a :: b :: c :: tl, _ => rfl

/-- C2 amended witness: the three-bookmark input has three resolved hosts
(bounded by its total of 3) and yields the all-`None` plan. -/
theorem resolved_hosts_bounded_by_total_witness :
    hostsC2.length ≤ totalHosts argsC2
    ∧ tryFrom envW argsC2 = Except.ok
        { host_bridge := Remote.None, remote := Remote.None, local_dir := none } := by
  have h := resolved_hosts_bounded_by_total envW argsC2 none hostsC2 (by decide)
  exact ⟨h.1, h.2 (by decide) (by decide)⟩

/-- C3: when the concatenated sequence ends in a token whose text names an
existing filesystem entry, that token becomes the local directory and is
not resolved as a host, regardless of its declared class; the earlier
tokens are resolved by plain per-token resolution (with their original
ordinal passwords), exactly as if the trailing token were absent. -/
theorem trailing_path_reclassified (env : Env) (args : Args)
    (init : List (AddrType × String)) (t : AddrType × String)
    (hsplit : classifiedTokens args = init ++ [t])
    (hex : env.pathExists t.2 = true) :
    resolveHosts env args =
      (resolveTokensPlain env args.password 0 init).map (fun hs => (some t.2, hs))
    ∧ (∀ hs, totalHosts args ≤ 3 →
        resolveTokensPlain env args.password 0 init = Except.ok hs →
        ∃ ra, tryFrom env args = Except.ok ra ∧ ra.local_dir = some t.2) := by
  have hmain := resolveHosts_of_last_exists env args init t hsplit hex
  refine ⟨hmain, ?_⟩
  intro hs hle hplain
  rw [hplain] at hmain
  simp only [Except.map] at hmain
  unfold tryFrom
  rw [if_neg (by omega), hmain]
  match hs with
  | [] => exact ⟨_, rfl, rfl⟩
  | [h1] => exact ⟨_, rfl, rfl⟩
  | [h1, h2] => exact ⟨_, rfl, rfl⟩
  | h1 :: h2 :: h3 :: tl => exact ⟨_, rfl, rfl⟩

/-- C3 witness: two addresses followed by `/home` (which exists): the loop
yields local directory `/home` and the plain resolution of the first two
tokens. -/
theorem trailing_path_reclassified_witness :
    resolveHosts envW argsC3 =
      (resolveTokensPlain envW argsC3.password 0 initC3).map
        (fun hs => (some "/home", hs)) :=
  (trailing_path_reclassified envW argsC3 initC3 (AddrType.Address, "/home")
    (by decide) (by decide)).1

/-- C4: the Nth host of the resolved host list carries the Nth password of
the flat password list (0-indexed ordinal pairing with the concatenated
token sequence), independent of argument class and of role assignment;
indices beyond the password list get `none`. -/
theorem password_ordinal_pairing (env : Env) (args : Args) (ld : Option String)
    (hs : List Remote)
    (hok : resolveHosts env args = Except.ok (ld, hs)) :
    ∀ j, (hj : j < hs.length) → passwordOf (hs.get ⟨j, hj⟩) = args.password.get? j := by
  rcases List.eq_nil_or_concat (classifiedTokens args) with hnil | ⟨init, t, hconcat⟩
  · unfold resolveHosts at hok
    rw [hnil] at hok
    simp only [resolveLoop] at hok
    cases hok
    intro j hj
    simp at hj
  · have hsplit : classifiedTokens args = init ++ [t] := by
      rw [hconcat, List.concat_eq_append]
    by_cases hex : env.pathExists t.2 = true
    · have heq := resolveHosts_of_last_exists env args init t hsplit hex
      rw [hok] at heq
      cases hplain : resolveTokensPlain env args.password 0 init with
      | error e => rw [hplain] at heq; cases heq
      | ok hs2 =>
        rw [hplain] at heq
        simp only [Except.map, Except.ok.injEq, Prod.mk.injEq] at heq
        obtain ⟨hld, hhs⟩ := heq
        subst hhs
        intro j hj
        simpa using resolveTokensPlain_password env args.password init 0 hs hplain j hj
    · have hex2 : env.pathExists t.2 = false := by
        revert hex
        cases env.pathExists t.2 <;> simp
      have hgl : (classifiedTokens args).getLast? = some t := by
        rw [hsplit]
        exact List.getLast?_concat init
      have heq := resolveHosts_of_last_not_exists env args (fun t2 ht2 => by
        rw [hgl] at ht2
        cases ht2
        exact hex2)
      rw [hok] at heq
      cases hplain : resolveTokensPlain env args.password 0 (classifiedTokens args) with
      | error e => rw [hplain] at heq; cases heq
      | ok hs2 =>
        rw [hplain] at heq
        simp only [Except.map, Except.ok.injEq, Prod.mk.injEq] at heq
        obtain ⟨hld, hhs⟩ := heq
        subst hhs
        intro j hj
        simpa using resolveTokensPlain_password env args.password
          (classifiedTokens args) 0 hs hplain j hj

/-- C4 witness: two positional addresses with one password — the host at
index 0 carries it, the host at index 1 gets none. -/
theorem password_ordinal_pairing_witness :
    passwordOf (hostsC4.get ⟨0, by decide⟩) = argsC4.password.get? 0
    ∧ passwordOf (hostsC4.get ⟨1, by decide⟩) = argsC4.password.get? 1 :=
  ⟨password_ordinal_pairing envW argsC4 none hostsC4 (by decide) 0 (by decide),
   password_ordinal_pairing envW argsC4 none hostsC4 (by decide) 1 (by decide)⟩

/-- C5: with more than 3 host-like tokens, resolution fails with the
`Too many arguments` error for every environment (so before any parsing,
filesystem check or SSH-config read); with at most 3 tokens that error is
never produced. -/
theorem too_many_arguments_iff (env : Env) (args : Args) :
    (totalHosts args > 3 → tryFrom env args = Except.error "Too many arguments")
    ∧ (totalHosts args ≤ 3 → tryFrom env args ≠ Except.error "Too many arguments") := by
  constructor
  · intro h
    unfold tryFrom
    rw [if_pos h]
  · intro hle hcontra
    unfold tryFrom at hcontra
    rw [if_neg (by omega)] at hcontra
    cases hres : resolveHosts env args with
    | error e =>
      rw [hres] at hcontra
      cases hcontra
      have hlen := resolveLoop_error_length env args.password (totalHosts args - 1)
        (classifiedTokens args) 0 none [] "Too many arguments" hres
      exact absurd hlen (by decide)
    | ok p =>
      obtain ⟨ld, hs⟩ := p
      rw [hres] at hcontra
      rcases hs with _ | ⟨a, _ | ⟨b, _ | ⟨c, tl⟩⟩⟩
      · cases hcontra
      · cases hcontra
      · cases hcontra
      · cases hcontra

/-- C5 witness: four bookmarks fail with `Too many arguments`; a two-token
input never produces that error. -/
theorem too_many_arguments_iff_witness :
    tryFrom envW argsC5 = Except.error "Too many arguments"
    ∧ tryFrom envW argsC1 ≠ Except.error "Too many arguments" :=
  ⟨(too_many_arguments_iff envW argsC5).1 (by decide),
   (too_many_arguments_iff envW argsC1).2 (by decide)⟩

/-- C6: an SSH-alias token `alias[:remote_path]` whose first matching
configuration entry (non-negated exact pattern match, searched in order)
is `h` resolves to SFTP parameters with address `h.host_name` (defaulting
to the alias), port `h.port` (defaulting to 22), username `h.user`, and
the remote-path suffix as initial remote directory. -/
theorem ssh_alias_builds_sftp_params (env : Env) (host_arg host_alias : String)
    (remote_path : Option String) (cfg pre post : List SshConfigHost)
    (h : SshConfigHost)
    (hcfg : env.sshConfig = Except.ok cfg)
    (hsplit : splitHostArg host_arg = (host_alias, remote_path))
    (hdecomp : cfg = pre ++ h :: post)
    (hpre : ∀ h2 ∈ pre, matchesAlias h2 host_alias = false)
    (hmatch : matchesAlias h host_alias = true) :
    parse_ssh_host env host_arg = Except.ok
      { protocol := FileTransferProtocol.Sftp
        params := ProtocolParams.Generic
          { address := (h.params.host_name).getD host_alias
            port := (h.params.port).getD 22
            username := h.params.user }
        remote_path := remote_path } := by
  have h1 : (splitHostArg host_arg).1 = host_alias := by rw [hsplit]
  have h2 : (splitHostArg host_arg).2 = remote_path := by rw [hsplit]
  simp only [parse_ssh_host, h1, h2, hcfg, Except.mapError]
  rw [hdecomp,
    find?_first_match (fun hh => matchesAlias hh host_alias) pre post h hpre hmatch]

/-- C6 witness: with a configuration entry `HostName 10.0.0.5`,
`Port 2222`, `User bob` under pattern `myhost`, the token `myhost:/data`
resolves to SFTP parameters `10.0.0.5:2222`, username `bob`, initial
remote directory `/data`. -/
theorem ssh_alias_builds_sftp_params_witness :
    parse_ssh_host envW "myhost:/data" = Except.ok
      { protocol := FileTransferProtocol.Sftp
        params := ProtocolParams.Generic
          { address := "10.0.0.5", port := 2222, username := some "bob" }
        remote_path := some "/data" } :=
  ssh_alias_builds_sftp_params envW "myhost:/data" "myhost" (some "/data")
    cfgW [] [] sshEntryW rfl (by decide) rfl (by decide) (by decide)

/-- C7: with the SSH configuration loaded as `cfg` and the token split
into `alias[:remote_path]`, resolution fails with the
`SSH host not found` error for `alias` if and only if no entry of `cfg`
has a non-negated pattern exactly equal to `alias`. -/
theorem ssh_host_not_found_iff (env : Env) (host_arg host_alias : String)
    (remote_path : Option String) (cfg : List SshConfigHost)
    (hcfg : env.sshConfig = Except.ok cfg)
    (hsplit : splitHostArg host_arg = (host_alias, remote_path)) :
    parse_ssh_host env host_arg = Except.error (sshNotFoundMsg host_alias)
      ↔ ∀ h ∈ cfg, matchesAlias h host_alias = false := by
  have h1 : (splitHostArg host_arg).1 = host_alias := by rw [hsplit]
  have h2 : (splitHostArg host_arg).2 = remote_path := by rw [hsplit]
  simp only [parse_ssh_host, h1, h2, hcfg, Except.mapError]
  cases hfind : cfg.find? (fun hh => matchesAlias hh host_alias) with
  | none =>
    constructor
    · intro _ h hh
      have := List.find?_eq_none.mp hfind h hh
      simpa using this
    · intro _
      rfl
  | some hx =>
    constructor
    · intro hcontra
      exact Except.noConfusion hcontra
    · intro hall
      exfalso
      have hpx := List.find?_some hfind
      have h2x := hall hx (List.mem_of_find?_eq_some hfind)
      rw [h2x] at hpx
      cases hpx

/-- C7 witness: alias `missing` matches no entry of the concrete
configuration, so it fails with the not-found error. -/
theorem ssh_host_not_found_iff_witness :
    parse_ssh_host envW "missing" = Except.error (sshNotFoundMsg "missing") :=
  (ssh_host_not_found_iff envW "missing" "missing" none cfgW rfl (by decide)).mpr
    (by decide)

/-- C8 counterexample: three positional addresses, none an existing path:
the returned plan has `target = None` although the invocation produced
three resolved hosts, refuting the claim that `target = None` occurs only
with zero resolved hosts. -/
theorem target_none_with_three_hosts_cex :
    tryFrom envW argsC8 = Except.ok
      { host_bridge := Remote.None, remote := Remote.None, local_dir := none }
    ∧ (resolveHosts envW argsC8).map (fun p => p.2.length) = Except.ok 3 := by decide

/-- C8 amended: in every successfully returned plan, `target = None`
occurs only together with `bridge = None`, and only when the invocation
resolved zero hosts or exactly three resolved hosts (all discarded). -/
theorem target_none_only_with_bridge_none (env : Env) (args : Args)
    (ld : Option String) (hs : List Remote) (ra : RemoteArgs)
    (hok : resolveHosts env args = Except.ok (ld, hs))
    (htry : tryFrom env args = Except.ok ra)
    (hnone : ra.remote = Remote.None) :
    ra.host_bridge = Remote.None ∧ (hs.length = 0 ∨ hs.length = 3) := by
  by_cases h3 : totalHosts args > 3
  · unfold tryFrom at htry
    rw [if_pos h3] at htry
    cases htry
  · unfold tryFrom at htry
    rw [if_neg h3, hok] at htry
    have hlen := resolveLoop_length_le env args.password (totalHosts args - 1)
      (classifiedTokens args) 0 none [] ld hs hok
    rw [classifiedTokens_length] at hlen
    have hnn := resolveLoop_ne_none env args.password (totalHosts args - 1)
      (classifiedTokens args) 0 none [] ld hs hok (by simp)
    rcases hs with _ | ⟨a, _ | ⟨b, _ | ⟨c, tl⟩⟩⟩
    · cases htry
      exact ⟨rfl, Or.inl rfl⟩
    · cases htry
      exact absurd hnone (hnn a (by simp))
    · cases htry
      exact absurd hnone (hnn a (by simp))
    · cases htry
      have htl : tl = [] := by
        simp only [List.length_cons, List.length_nil, Nat.zero_add] at hlen
        have := List.length_eq_zero.mp (by omega : tl.length = 0)
        exact this
      subst htl
      exact ⟨rfl, Or.inr rfl⟩

/-- C8 amended witness: on the three-address input the plan has
`target = None`, `bridge = None`, and the resolved host count is 3. -/
theorem target_none_only_with_bridge_none_witness :
    RemoteArgs.host_bridge
        { host_bridge := Remote.None, remote := Remote.None, local_dir := none }
      = Remote.None
    ∧ (hostsC8.length = 0 ∨ hostsC8.length = 3) :=
  target_none_only_with_bridge_none envW argsC8 none hostsC8
    { host_bridge := Remote.None, remote := Remote.None, local_dir := none }
    (by decide) (by decide) (by decide)

/-- C9: with exactly three tokens whose last does not name an existing
filesystem entry and whose resolution succeeds, the resolver does not
fail: all three tokens resolve into hosts, and the returned plan has
`target = None`, `bridge = None` and `local_dir = None` — the three
resolved hosts are silently discarded. -/
theorem three_hosts_silently_discarded (env : Env) (args : Args)
    (t : AddrType × String) (ld : Option String) (hs : List Remote)
    (h3 : totalHosts args = 3)
    (hlast : (classifiedTokens args).getLast? = some t)
    (hex : env.pathExists t.2 = false)
    (hok : resolveHosts env args = Except.ok (ld, hs)) :
    tryFrom env args = Except.ok
      { host_bridge := Remote.None, remote := Remote.None, local_dir := none }
    ∧ hs.length = 3 ∧ ld = none := by
  have heq := resolveHosts_of_last_not_exists env args (fun t2 ht2 => by
    rw [hlast] at ht2
    cases ht2
    exact hex)
  rw [hok] at heq
  cases hplain : resolveTokensPlain env args.password 0 (classifiedTokens args) with
  | error e => rw [hplain] at heq; cases heq
  | ok hs2 =>
    rw [hplain] at heq
    simp only [Except.map, Except.ok.injEq, Prod.mk.injEq] at heq
    obtain ⟨hld, hhs⟩ := heq
    have hlen2 := resolveTokensPlain_length env args.password
      (classifiedTokens args) 0 hs2 hplain
    rw [classifiedTokens_length, h3] at hlen2
    have hlen3 : hs.length = 3 := by rw [hhs, hlen2]
    refine ⟨?_, hlen3, hld⟩
    unfold tryFrom
    rw [if_neg (by omega), hok, hld]
    match hs, hlen3 with
    | a :: b :: c :: tl, _ => rfl

/-- C9 witness: one bookmark plus two addresses, last token not a path:
the plan is all-`None` with three resolved hosts discarded. -/
theorem three_hosts_silently_discarded_witness :
    tryFrom envW argsC9 = Except.ok
      { host_bridge := Remote.None, remote := Remote.None, local_dir := none }
    ∧ hostsC9.length = 3 ∧ (none : Option String) = none :=
  three_hosts_silently_discarded envW argsC9 (AddrType.Address, "scp://y")
    none hostsC9 (by decide) (by decide) (by decide) (by decide)

/-- C10: when the last concatenated token is consumed as the local
directory, the host list covers exactly the earlier ordinals — the
password at the last ordinal is attached to no resolved host — and every
earlier host keeps its original ordinal password pairing. -/
theorem local_dir_password_discarded (env : Env) (args : Args)
    (init : List (AddrType × String)) (t : AddrType × String)
    (ld : Option String) (hs : List Remote)
    (hsplit : classifiedTokens args = init ++ [t])
    (hex : env.pathExists t.2 = true)
    (hok : resolveHosts env args = Except.ok (ld, hs)) :
    hs.length = totalHosts args - 1
    ∧ ∀ j, (hj : j < hs.length) →
        passwordOf (hs.get ⟨j, hj⟩) = args.password.get? j := by
  have heq := resolveHosts_of_last_exists env args init t hsplit hex
  rw [hok] at heq
  cases hplain : resolveTokensPlain env args.password 0 init with
  | error e => rw [hplain] at heq; cases heq
  | ok hs2 =>
    rw [hplain] at heq
    simp only [Except.map, Except.ok.injEq, Prod.mk.injEq] at heq
    obtain ⟨hld, hhs⟩ := heq
    subst hhs
    constructor
    · have hl := resolveTokensPlain_length env args.password init 0 hs hplain
      have htot : totalHosts args = init.length + 1 := by
        rw [← classifiedTokens_length, hsplit]
        simp
      omega
    · intro j hj
      simpa using resolveTokensPlain_password env args.password init 0 hs hplain j hj

/-- C10 witness: one address followed by `/home` with two passwords: the
single resolved host keeps the first password; the second password (the
local-directory ordinal) is attached to nothing. -/
theorem local_dir_password_discarded_witness :
    hostsC10.length = totalHosts argsC10 - 1
    ∧ passwordOf (hostsC10.get ⟨0, by decide⟩) = argsC10.password.get? 0 := by
  have h := local_dir_password_discarded envW argsC10 initC10
    (AddrType.Address, "/home") (some "/home") hostsC10 (by decide) (by decide)
    (by decide)
  exact ⟨h.1, h.2 0 (by decide)⟩

end Termscp
